import Mathlib

/-!
Verification of the command dispatch and interactive shell engine of
Python-Paragon (`src/paragon/core/shell.py`, reference registration in
`src/main.py`).

The shell is shallowly embedded: the mutable `InteractiveShell` object
becomes an explicit state record, console prints become an explicit list of
`Report` events, registered operations become functions from argument lists
to an outcome (normal return or raised exception), and the interactive
inputs consumed by the menu widget become an explicit list of selection
results.  All definitions are executable.
-/

namespace Paragon

/-! ## Basic string helpers (Python `str` methods used by the shell) -/

/-- `leadsWith n h` decides whether the character list `n` is an initial
segment of `h`. -/
def leadsWith : List Char → List Char → Bool
  | [], _ => true
  | _ :: _, [] => false
  | a :: as, b :: bs => a == b && leadsWith as bs

/-- `occursIn n h` decides whether the character list `n` occurs
contiguously inside `h` (Python's `n in h` on strings). -/
def occursIn (needle : List Char) : List Char → Bool
  | [] => leadsWith needle []
  | c :: cs => leadsWith needle (c :: cs) || occursIn needle cs

/-- Python `needle in hay` for strings. -/
def strContains (hay needle : String) : Bool :=
  occursIn needle.toList hay.toList

/-- Python `str.strip()`: remove leading and trailing whitespace. -/
def pyStrip (s : String) : String :=
  String.mk (((s.toList.dropWhile Char.isWhitespace).reverse.dropWhile
    Char.isWhitespace).reverse)

/-- Helper for `pySplit`: accumulates the current word (reversed) while
scanning the character list. -/
def pySplitAux : List Char → List Char → List String
  | [], cur => if cur.isEmpty then [] else [String.mk cur.reverse]
  | c :: cs, cur =>
    if c.isWhitespace then
      if cur.isEmpty then pySplitAux cs []
      else String.mk cur.reverse :: pySplitAux cs []
    else pySplitAux cs (c :: cur)

/-- Python `str.split()` with no arguments: split on whitespace runs,
discarding empty fields. -/
def pySplit (s : String) : List String :=
  pySplitAux s.toList []

/-! ## `shlex.split` (POSIX mode, whitespace-split, as used by
`parse_command`) -/

/-- The whitespace characters of `shlex` (`' \t\r\n'`). -/
def shlexWS (c : Char) : Bool :=
  c == ' ' || c == '\t' || c == '\r' || c == '\n'

/-- Lexer failures of `shlex.read_token`. -/
inductive ShlexErr
  | noClosingQuote
  | noEscapedChar
deriving DecidableEq

/-- Lexer states of `shlex.read_token`: between tokens, inside an unquoted
word, inside a quoted section, or just after an escape character (recording
the quote being escaped from, if any). -/
inductive LexMode
  | ground
  | word
  | quoted (q : Char)
  | escaped (fromQuote : Option Char)

/-- One-token-at-a-time state machine of `shlex.read_token` (POSIX mode,
`whitespace_split=True`, no comments, no punctuation chars), run over the
whole input.  `tok` is the current token (reversed), `quotedFlag` records
whether the current token saw a quote, `acc` the emitted tokens. -/
def shlexAux : List Char → LexMode → List Char → Bool → List String →
    Except ShlexErr (List String)
  | [], st, tok, quotedFlag, acc =>
    match st with
    | .quoted _ => .error .noClosingQuote
    | .escaped _ => .error .noEscapedChar
    | _ =>
      if tok.isEmpty && !quotedFlag then .ok acc
      else .ok (acc ++ [String.mk tok.reverse])
  | c :: cs, .ground, tok, quotedFlag, acc =>
    if shlexWS c then
      if tok.isEmpty && !quotedFlag then shlexAux cs .ground [] false acc
      else shlexAux cs .ground [] false (acc ++ [String.mk tok.reverse])
    else if c == '\\' then shlexAux cs (.escaped none) tok quotedFlag acc
    else if c == '\'' || c == '"' then shlexAux cs (.quoted c) tok quotedFlag acc
    else shlexAux cs .word (c :: tok) quotedFlag acc
  | c :: cs, .word, tok, quotedFlag, acc =>
    if shlexWS c then
      if tok.isEmpty && !quotedFlag then shlexAux cs .ground [] false acc
      else shlexAux cs .ground [] false (acc ++ [String.mk tok.reverse])
    else if c == '\\' then shlexAux cs (.escaped none) tok quotedFlag acc
    else if c == '\'' || c == '"' then shlexAux cs (.quoted c) tok quotedFlag acc
    else shlexAux cs .word (c :: tok) quotedFlag acc
  | c :: cs, .quoted q, tok, _, acc =>
    if c == q then shlexAux cs .word tok true acc
    else if c == '\\' && q == '"' then shlexAux cs (.escaped (some q)) tok true acc
    else shlexAux cs (.quoted q) (c :: tok) true acc
  | c :: cs, .escaped fq, tok, quotedFlag, acc =>
    match fq with
    | none => shlexAux cs .word (c :: tok) quotedFlag acc
    | some q =>
      if c != '\\' && c != q then
        shlexAux cs (.quoted q) (c :: '\\' :: tok) quotedFlag acc
      else shlexAux cs (.quoted q) (c :: tok) quotedFlag acc

/-- `shlex.split(s)` in POSIX mode: shell-style quoting; raises (returns
`.error`) on unmatched quoting or a trailing escape. -/
def shlexSplit (s : String) : Except ShlexErr (List String) :=
  shlexAux s.toList .ground [] false []

/-! ## Data model of the shell -/

/-- Outcome of invoking a registered operation: normal return or a raised
exception carrying its message. -/
inductive OpResult
  | ok
  | raises (msg : String)

/-- A registered operation: a callable taking the argument list.  Its own
console output is out of scope; only normal return vs. raised exception is
observable at the dispatch boundary. -/
def Operation : Type := List String → OpResult

/-- Console/trace events produced by the shell core.  Each constructor
corresponds to one output site in `shell.py` (plus `invoked`, which records
that a registered operation was called). -/
inductive Report
  | goodbye
  | helpTable
  | infoPanel
  | clearScreen
  | noHistory
  | historyTable (rows : List String)
  | invoked (name : String) (args : List String)
  | errorExecuting (msg : String)
  | unknownCommand (tok : String)
  | unknownHint
  | interruptHint
  | unexpectedError (msg : String)
  | welcomeBanner
deriving DecidableEq

/-- Recognizer for unknown-command reports, used to count them. -/
def isUnknownReport : Report → Bool
  | .unknownCommand _ => true
  | _ => false

/-- The rendered text of the operation-failure report
(`f"Error executing command: {e}"` in the source). -/
def errorMessage (e : String) : String :=
  "Error executing command: " ++ e

/-- The rendered text of the unknown-command report
(`f"Unknown command: {cmd}"` in the source). -/
def unknownMessage (tok : String) : String :=
  "Unknown command: " ++ tok

/-- State of the `InteractiveShell` object: the running flag, the history
buffer, the operation registry and the alias table.  Python dicts are
modelled as association lists where the most recent binding is listed
first. -/
structure InteractiveShell where
  running : Bool
  command_history : List String
  commands : List (String × Operation)
  aliases : List (String × String)

/-- Dict lookup: the most recent binding of a key. -/
def lookupStr {α : Type} (l : List (String × α)) (k : String) : Option α :=
  match l.find? (fun p => p.1 == k) with
  | some p => some p.2
  | none => none

/-- `InteractiveShell.__init__`. -/
def mkShell : InteractiveShell :=
  { running := true, command_history := [], commands := [], aliases := [] }

/-- `InteractiveShell.register_command`: `self.commands[name] = func`. -/
def register_command (name : String) (func : Operation)
    (sh : InteractiveShell) : InteractiveShell :=
  { sh with commands := (name, func) :: sh.commands }

/-- `InteractiveShell.register_alias`: `self.aliases[alias] = command`. -/
def register_alias (aliasTok : String) (command : String)
    (sh : InteractiveShell) : InteractiveShell :=
  { sh with aliases := (aliasTok, command) :: sh.aliases }

/-! ## Command parser -/

/-- The token list `parse_command` works from: `shlex.split` with a
fallback to naive whitespace splitting on a `ValueError`. -/
def splitParts (input_text : String) : List String :=
  match shlexSplit input_text with
  | .ok parts => parts
  | .error _ => pySplit input_text

/-- Python `str.lower()` (ASCII case folding, characterwise). -/
def pyToLower (s : String) : String :=
  String.mk (s.toList.map Char.toLower)

/-- `InteractiveShell.parse_command`: split the raw line, lowercase the
first token, keep the remaining parts verbatim as arguments. -/
def parse_command (input_text : String) : String × List String :=
  match splitParts input_text with
  | [] => ("", [])
  | c :: args => (pyToLower c, args)

/-! ## Menu navigator (`show_interactive_menu`)

The questionary widget blocks for one selection per `.ask()` call; we model
the interactive input as a list of `Option String` values, one per `.ask()`
(with `none` for a cancelled prompt, and exhausted input also reading as
`none`).  A selection is only accepted when it is one of the offered
choices, which is how the widget behaves. -/

/-- Result of one `questionary.select(...).ask()` given the offered choices
and the pending selection value. -/
def askChoice (choices : List String) (v : Option String) : Option String :=
  match v with
  | none => none
  | some s => if choices.contains s then some s else none

/-- The top-level category choices of `show_interactive_menu`. -/
def categoryChoices : List String :=
  ["🖥️  System Commands", "🌐 Network Commands", "📁 File Commands",
   "📊 Data Processing", "🔧 Git Commands", "🐳 Docker Commands",
   "📄 Text & Log Analysis", "🛠️  Utility Commands", "❓ Help & Info",
   "← Back to Command Prompt"]

/-- The second-level choice list of each category, selected by substring
tests on the chosen category string, exactly as the `elif` chain in the
source does. -/
def categoryCommandsOf (cat : String) : Option (List String) :=
  if strContains cat "System" then
    some ["cpu", "memory", "processes", "disk", "env", "← Back"]
  else if strContains cat "Network" then
    some ["ip", "http-check", "port-scan", "ping", "← Back"]
  else if strContains cat "File" then
    some ["tree", "metadata", "rename", "search", "← Back"]
  else if strContains cat "Data" then
    some ["json-format", "yaml-format", "csv-stats", "json-query", "← Back"]
  else if strContains cat "Git" then
    some ["git status", "git log", "git branches", "git diff", "← Back"]
  else if strContains cat "Docker" then
    some ["docker ps", "docker images", "docker stats", "← Back"]
  else if strContains cat "Text" then
    some ["log-analyze", "text-stats", "word-count", "← Back"]
  else if strContains cat "Utility" then
    some ["password", "uuid", "currency", "hash", "base64", "markdown", "← Back"]
  else if strContains cat "Help" then
    some ["help", "info", "history", "← Back"]
  else none

/-- Every concrete command reachable from the compiled-in menu table (the
union of the second-level choice lists, without the back entries). -/
def menuCommandNames : List String :=
  ["cpu", "memory", "processes", "disk", "env",
   "ip", "http-check", "port-scan", "ping",
   "tree", "metadata", "rename", "search",
   "json-format", "yaml-format", "csv-stats", "json-query",
   "git status", "git log", "git branches", "git diff",
   "docker ps", "docker images", "docker stats",
   "log-analyze", "text-stats", "word-count",
   "password", "uuid", "currency", "hash", "base64", "markdown",
   "help", "info", "history"]

/-- One pass of the body of `show_interactive_menu`: either it returns
(`Sum.inl`, carrying the result and the unconsumed input), or it reaches
the `return self.show_interactive_menu()` back-navigation line (`Sum.inr`,
carrying the input left for that recursive call). -/
def menuStep (inp : List (Option String)) :
    (Option String × List (Option String)) ⊕ List (Option String) :=
  match inp with
  | [] => .inl (none, [])
  | v :: rest =>
    match askChoice categoryChoices v with
    | none => .inl (none, rest)
    | some cat =>
      if cat = "← Back to Command Prompt" then .inl (none, rest)
      else
        match categoryCommandsOf cat with
        | none => .inl (none, rest)
        | some choices =>
          match rest with
          | [] => .inr []
          | w :: rest2 =>
            match askChoice choices w with
            | none => .inr rest2
            | some c =>
              if c = "← Back" then .inr rest2
              else .inl (some c, rest2)

/-- `show_interactive_menu` as a fuelled loop over `menuStep`; each
back-navigation consumes interactive input, so any fuel exceeding the input
length gives the same result (`menuFuel_congr` below), and
`show_interactive_menu` supplies such a fuel. -/
def menuFuel : Nat → List (Option String) → Option String × List (Option String)
  | 0, inp => (none, inp)
  | fuel + 1, inp =>
    match menuStep inp with
    | .inl r => r
    | .inr rest => menuFuel fuel rest

/-- `InteractiveShell.show_interactive_menu`: pick a category, then a
command; back at the top level cancels, back (or a cancelled prompt) at the
second level recursively restarts category selection.  Returns the selected
command (if any) together with the unconsumed interactive input. -/
def show_interactive_menu (inp : List (Option String)) :
    Option String × List (Option String) :=
  menuFuel (inp.length + 1) inp

/-! ## Dispatcher (`execute_command`)

The `menu` built-in recursively dispatches the selected command, so
`execute_command` is recursive; each menu interaction consumes interactive
input, which bounds the recursion.  We define the dispatcher structurally
on a fuel argument so that it evaluates by `decide`/`rfl`, set the fuel to
one more than the length of the interactive input, and prove below
(`executeFuel_fuel_irrelevant`) that the result is independent of the fuel
whenever the fuel exceeds that length — so the zero-fuel branch is
unreachable from `execute_command`. -/

/-- Result of `execute_command`: the updated shell object, the returned
handled flag, the console reports emitted, and the unconsumed interactive
input. -/
structure ExecResult where
  shell : InteractiveShell
  handled : Bool
  out : List Report
  menuInput : List (Option String)

/-- The last `n` elements of a list, in order (Python `l[-n:]`). -/
def lastN {α : Type} (n : Nat) (l : List α) : List α :=
  l.drop (l.length - n)

/-- Alias resolution step of `execute_command`: replace the token by its
alias target when bound, otherwise leave it unchanged. -/
def resolveAlias (al : List (String × String)) (tok : String) : String :=
  match lookupStr al tok with
  | some c => c
  | none => tok

/-- One pass of the body of `InteractiveShell.execute_command`.  Mirrors
the source order: alias substitution, the built-in chain (`exit`/`quit`,
`help`, `info`, `menu`, `clear`, `history`, empty token), then registry
lookup with the operation call inside a failure boundary.  Either it
returns (`Sum.inl`), or it reaches the
`return self.execute_command(menu_cmd, [])` line of the `menu` built-in
(`Sum.inr`, carrying the selected command and the input left over). -/
def execStep (sh : InteractiveShell) (cmd0 : String) (args : List String)
    (inp : List (Option String)) : ExecResult ⊕ (String × List (Option String)) :=
  let cmd := resolveAlias sh.aliases cmd0
  if cmd ∈ (["exit", "quit"] : List String) then
    .inl ⟨{ sh with running := false }, true, [.goodbye], inp⟩
  else if cmd = "help" then .inl ⟨sh, true, [.helpTable], inp⟩
  else if cmd = "info" then .inl ⟨sh, true, [.infoPanel], inp⟩
  else if cmd = "menu" then
    match show_interactive_menu inp with
    | (none, rest) => .inl ⟨sh, true, [], rest⟩
    | (some menuCmd, rest) =>
      if menuCmd = "" then .inl ⟨sh, true, [], rest⟩
      else .inr (menuCmd, rest)
  else if cmd = "clear" then .inl ⟨sh, true, [.clearScreen], inp⟩
  else if cmd = "history" then
    if sh.command_history.isEmpty then .inl ⟨sh, true, [.noHistory], inp⟩
    else .inl ⟨sh, true, [.historyTable (lastN 20 sh.command_history)], inp⟩
  else if cmd = "" then .inl ⟨sh, true, [], inp⟩
  else
    match lookupStr sh.commands cmd with
    | some f =>
      match f args with
      | .ok => .inl ⟨sh, true, [.invoked cmd args], inp⟩
      | .raises e => .inl ⟨sh, true, [.invoked cmd args, .errorExecuting e], inp⟩
    | none => .inl ⟨sh, false, [.unknownCommand cmd, .unknownHint], inp⟩

/-- `execute_command` as a fuelled loop over `execStep`; each menu
dispatch consumes interactive input, so any fuel exceeding the input length
gives the same result (`executeFuel_congr` below), and `execute_command`
supplies such a fuel. -/
def executeFuel : Nat → InteractiveShell → String → List String →
    List (Option String) → ExecResult
  | 0, sh, _, _, inp => ⟨sh, true, [], inp⟩
  | fuel + 1, sh, cmd0, args, inp =>
    match execStep sh cmd0 args inp with
    | .inl r => r
    | .inr (menuCmd, rest) => executeFuel fuel sh menuCmd [] rest

/-- `InteractiveShell.execute_command` with interactive input `inp` for any
menus it opens. -/
def execute_command (sh : InteractiveShell) (cmd : String)
    (args : List String) (inp : List (Option String)) : ExecResult :=
  executeFuel (inp.length + 1) sh cmd args inp

/-! ## Session loop (`run`) -/

/-- One blocking read at the prompt, as seen by the `try` block of `run`:
a line of text (carrying the interactive input for any menus it opens), a
`KeyboardInterrupt`, an `EOFError`, or another unexpected exception. -/
inductive InEvent
  | line (s : String) (menuInp : List (Option String))
  | interrupt
  | eof
  | exc (msg : String)

/-- One iteration of the `while self.running` loop body of `run`. -/
def stepEvent (sh : InteractiveShell) : InEvent → InteractiveShell × List Report
  | .line s menuInp =>
    let t := pyStrip s
    if t = "" then (sh, [])
    else
      let sh1 := { sh with command_history := sh.command_history ++ [t] }
      let (c, args) := parse_command t
      let r := execute_command sh1 c args menuInp
      (r.shell, r.out)
  | .interrupt => (sh, [.interruptHint])
  | .eof => ({ sh with running := false }, [.goodbye])
  | .exc e => (sh, [.unexpectedError e])

/-- The `while self.running` loop of `run`, processing prompt events in
order until the running flag is cleared or the events are exhausted. -/
def runLoop (sh : InteractiveShell) : List InEvent → InteractiveShell × List Report
  | [] => (sh, [])
  | e :: rest =>
    if sh.running then
      ((runLoop (stepEvent sh e).1 rest).1,
       (stepEvent sh e).2 ++ (runLoop (stepEvent sh e).1 rest).2)
    else (sh, [])

/-- `InteractiveShell.run`: welcome banner, then the prompt loop. -/
def run (sh : InteractiveShell) (events : List InEvent) :
    InteractiveShell × List Report :=
  let (sh1, out) := runLoop sh events
  (sh1, .welcomeBanner :: out)

/-! ## Reference registration (`main.py`) -/

/-- The canonical command names registered by `main()`, in registration
order. -/
def referenceCommandNames : List String :=
  ["system.cpu", "system.memory", "system.processes", "system.disk",
   "system.env", "system.whoami", "system.hostname", "system.uptime",
   "system.date", "system.which", "system.kill",
   "network.ip", "network.http-check", "network.port-scan", "network.ping",
   "network.wget",
   "filelab.rename", "filelab.metadata", "filelab.tree", "filelab.search",
   "utils.currency", "utils.password", "utils.markdown", "utils.base64",
   "utils.hash", "utils.uuid",
   "data.json-format", "data.yaml-format", "data.csv-stats", "data.json-query",
   "git.status", "git.log", "git.branches", "git.diff",
   "docker.ps", "docker.images", "docker.stats",
   "text.log-analyze", "text.text-stats", "text.word-count",
   "filesystem.ls", "filesystem.cp", "filesystem.mv", "filesystem.rm",
   "filesystem.mkdir", "filesystem.touch", "filesystem.cat",
   "filesystem.head", "filesystem.tail", "filesystem.grep", "filesystem.sort",
   "archive.zip", "archive.unzip", "archive.tar",
   "shell.echo", "shell.history", "shell.alias", "shell.clear",
   "shell.sleep", "shell.pwd", "shell.cd", "shell.export", "shell.printenv"]

/-- The alias pairs registered by `main()`, in registration order. -/
def referenceAliasPairs : List (String × String) :=
  [("cpu", "system.cpu"), ("memory", "system.memory"), ("mem", "system.memory"),
   ("processes", "system.processes"), ("ps", "system.processes"),
   ("disk", "system.disk"), ("env", "system.env"), ("whoami", "system.whoami"),
   ("hostname", "system.hostname"), ("uptime", "system.uptime"),
   ("date", "system.date"), ("which", "system.which"), ("kill", "system.kill"),
   ("ip", "network.ip"), ("http", "network.http-check"),
   ("scan", "network.port-scan"), ("ping", "network.ping"),
   ("wget", "network.wget"), ("download", "network.wget"),
   ("rename", "filelab.rename"), ("metadata", "filelab.metadata"),
   ("tree", "filelab.tree"), ("search", "filelab.search"),
   ("ls", "filesystem.ls"), ("dir", "filesystem.ls"),
   ("cp", "filesystem.cp"), ("copy", "filesystem.cp"),
   ("mv", "filesystem.mv"), ("move", "filesystem.mv"),
   ("rm", "filesystem.rm"), ("del", "filesystem.rm"),
   ("mkdir", "filesystem.mkdir"), ("touch", "filesystem.touch"),
   ("cat", "filesystem.cat"), ("type", "filesystem.cat"),
   ("head", "filesystem.head"), ("tail", "filesystem.tail"),
   ("grep", "filesystem.grep"), ("sort", "filesystem.sort"),
   ("zip", "archive.zip"), ("unzip", "archive.unzip"), ("tar", "archive.tar"),
   ("echo", "shell.echo"), ("history", "shell.history"),
   ("alias", "shell.alias"), ("clear", "shell.clear"), ("cls", "shell.clear"),
   ("sleep", "shell.sleep"), ("pwd", "shell.pwd"), ("cd", "shell.cd"),
   ("export", "shell.export"), ("printenv", "shell.printenv"),
   ("currency", "utils.currency"), ("password", "utils.password"),
   ("passwd", "utils.password"), ("markdown", "utils.markdown"),
   ("md", "utils.markdown"), ("base64", "utils.base64"), ("b64", "utils.base64"),
   ("hash", "utils.hash"), ("uuid", "utils.uuid"),
   ("json-format", "data.json-format"), ("json", "data.json-format"),
   ("yaml-format", "data.yaml-format"), ("yaml", "data.yaml-format"),
   ("csv-stats", "data.csv-stats"), ("csv", "data.csv-stats"),
   ("json-query", "data.json-query"),
   ("git", "git.status"), ("git-status", "git.status"),
   ("git-log", "git.log"), ("git-branches", "git.branches"),
   ("git-diff", "git.diff"),
   ("docker", "docker.ps"), ("docker-ps", "docker.ps"),
   ("docker-images", "docker.images"), ("docker-stats", "docker.stats"),
   ("log-analyze", "text.log-analyze"), ("log", "text.log-analyze"),
   ("text-stats", "text.text-stats"), ("word-count", "text.word-count"),
   ("wc", "text.word-count")]

/-- The shell as `main()` builds it, with the leaf operation bound to each
canonical name supplied by `opOf` (the ~50 leaf operations are out of
scope; only the names under which `main()` registers them matter here). -/
def referenceShell (opOf : String → Operation) : InteractiveShell :=
  let withCommands := referenceCommandNames.foldl
    (fun s n => register_command n (opOf n) s) mkShell
  referenceAliasPairs.foldl (fun s p => register_alias p.1 p.2 s) withCommands

/-! ## Built-in token surface and accepted input lines -/

/-- The reserved built-in shell verbs handled before registry lookup. -/
def builtinVerbs : List String :=
  ["help", "info", "menu", "clear", "history", "exit", "quit"]

/-- The built-in shell command surface: the reserved verbs plus the empty
token (the spec's "empty line" built-in). -/
def isBuiltinToken (tok : String) : Bool :=
  builtinVerbs.contains tok || tok == ""

/-- The history entry an input event contributes, if any: a line which is
non-empty after stripping contributes its stripped text. -/
def acceptedOf : InEvent → Option String
  | .line s _ => if pyStrip s = "" then none else some (pyStrip s)
  | _ => none

/-- The history entries a list of prompt events contributes, in order. -/
def acceptedLines (events : List InEvent) : List String :=
  events.filterMap acceptedOf

/-! ## Concrete states used by the claim analyses -/

/-- The operation that always raises, used to exhibit claim C2's failure
report. -/
def opBoom : Operation := fun _ => .raises "kaboom"

/-- The shell with one registered command bound to a raising operation. -/
def shellC2 : InteractiveShell := register_command "mycmd" opBoom mkShell

/-- Alias table that shadows the `exit` built-in, refuting claim C1. -/
def shellC1 : InteractiveShell := register_alias "exit" "zzz" mkShell

/-- A do-nothing operation for the C4 states. -/
def opC4 : Operation := fun _ => .ok

/-- Alias table where the canonical target `c` of alias `a` is itself an
alias key: `a → c`, `c → d`, with `c` registered. -/
def shellC4 : InteractiveShell :=
  register_command "c" opC4 (register_alias "c" "d" (register_alias "a" "c" mkShell))

/-- The reference-shaped state for the C4 witness: alias `cpu →
system.cpu` with `system.cpu` registered. -/
def shellC4w : InteractiveShell :=
  register_command "system.cpu" opC4 (register_alias "cpu" "system.cpu" mkShell)

/-- The input line whose stripped text differs from the raw line, for the
C6 counterexample. -/
def rawLineC6 : String := "  cpu  "

/-- The shell state with a two-entry history, for the C6 witness. -/
def shellC6w : InteractiveShell :=
  { mkShell with command_history := ["one", "two"] }

/-- The category/command selections of the multi-word menu entries. -/
def menuPathPairs : List (String × String) :=
  [("🔧 Git Commands", "git status"), ("🔧 Git Commands", "git log"),
   ("🔧 Git Commands", "git branches"), ("🔧 Git Commands", "git diff"),
   ("🐳 Docker Commands", "docker ps"), ("🐳 Docker Commands", "docker images"),
   ("🐳 Docker Commands", "docker stats")]

/-! ## Fuel irrelevance and consumption lemmas -/

theorem menuStep_inr_lt {inp rest : List (Option String)}
    (h : menuStep inp = .inr rest) : rest.length < inp.length := by
  unfold menuStep at h
  repeat' split at h
  all_goals simp_all
  all_goals omega

theorem menuStep_inl_le {inp rest : List (Option String)} {r : Option String}
    (h : menuStep inp = .inl (r, rest)) : rest.length ≤ inp.length := by
  unfold menuStep at h
  repeat' split at h
  all_goals try simp_all
  all_goals omega

theorem menuStep_inl_some {inp rest : List (Option String)} {c : String}
    (h : menuStep inp = .inl (some c, rest)) : rest.length + 2 ≤ inp.length := by
  unfold menuStep at h
  repeat' split at h
  all_goals simp_all

theorem menuFuel_congr (f1 : Nat) : ∀ (f2 : Nat) (inp : List (Option String)),
    inp.length < f1 → inp.length < f2 → menuFuel f1 inp = menuFuel f2 inp := by
  induction f1 with
  | zero => intro f2 inp h1 _; exact absurd h1 (by omega)
  | succ n ih =>
    intro f2 inp h1 h2
    match f2 with
    | 0 => exact absurd h2 (by omega)
    | m + 1 =>
      simp only [menuFuel]
      cases hstep : menuStep inp with
      | inl r => rfl
      | inr rest =>
        have hlt := menuStep_inr_lt hstep
        exact ih m rest (by omega) (by omega)

theorem menuFuel_rest_le (f : Nat) : ∀ (inp : List (Option String)),
    (menuFuel f inp).2.length ≤ inp.length := by
  induction f with
  | zero => intro inp; simp [menuFuel]
  | succ n ih =>
    intro inp
    simp only [menuFuel]
    cases hstep : menuStep inp with
    | inl r =>
      obtain ⟨ropt, rest⟩ := r
      exact menuStep_inl_le hstep
    | inr rest =>
      have hlt := menuStep_inr_lt hstep
      exact Nat.le_trans (ih rest) (Nat.le_of_lt hlt)

theorem menuFuel_some_consumes (f : Nat) : ∀ (inp : List (Option String))
    (c : String) (rest : List (Option String)),
    menuFuel f inp = (some c, rest) → rest.length + 2 ≤ inp.length := by
  induction f with
  | zero => intro inp c rest h; simp [menuFuel] at h
  | succ n ih =>
    intro inp c rest h
    simp only [menuFuel] at h
    cases hstep : menuStep inp with
    | inl r =>
      rw [hstep] at h
      have hr : r = (some c, rest) := h
      rw [hr] at hstep
      exact menuStep_inl_some hstep
    | inr rest2 =>
      rw [hstep] at h
      have h2 : menuFuel n rest2 = (some c, rest) := h
      have hlt := menuStep_inr_lt hstep
      have := ih rest2 c rest h2
      omega

theorem show_interactive_menu_some_consumes {inp : List (Option String)}
    {c : String} {rest : List (Option String)}
    (h : show_interactive_menu inp = (some c, rest)) :
    rest.length + 2 ≤ inp.length :=
  menuFuel_some_consumes (inp.length + 1) inp c rest h

theorem execStep_inr_consumes {sh : InteractiveShell} {cmd : String}
    {args : List String} {inp rest : List (Option String)} {menuCmd : String}
    (h : execStep sh cmd args inp = .inr (menuCmd, rest)) :
    rest.length + 2 ≤ inp.length := by
  simp only [execStep] at h
  split at h
  · exact Sum.noConfusion h
  split at h
  · exact Sum.noConfusion h
  split at h
  · exact Sum.noConfusion h
  split at h
  case isTrue =>
    rcases hmenu : show_interactive_menu inp with ⟨mopt, rest2⟩
    rw [hmenu] at h
    cases mopt with
    | none => exact Sum.noConfusion h
    | some mc =>
      have h' : (if mc = "" then
          (Sum.inl ⟨sh, true, [], rest2⟩ :
            ExecResult ⊕ (String × List (Option String)))
        else Sum.inr (mc, rest2)) = Sum.inr (menuCmd, rest) := h
      by_cases hmc : mc = ""
      · rw [if_pos hmc] at h'; exact Sum.noConfusion h'
      · rw [if_neg hmc] at h'
        have hp : (mc, rest2) = (menuCmd, rest) := Sum.inr.inj h'
        have h1 : mc = menuCmd := congrArg Prod.fst hp
        have h2 : rest2 = rest := congrArg Prod.snd hp
        rw [h1, h2] at hmenu
        exact show_interactive_menu_some_consumes hmenu
  case isFalse =>
    split at h
    · exact Sum.noConfusion h
    split at h
    · split at h
      · exact Sum.noConfusion h
      · exact Sum.noConfusion h
    split at h
    · exact Sum.noConfusion h
    split at h
    · split at h
      · exact Sum.noConfusion h
      · exact Sum.noConfusion h
    · exact Sum.noConfusion h

theorem executeFuel_congr (f1 : Nat) : ∀ (f2 : Nat) (sh : InteractiveShell)
    (cmd : String) (args : List String) (inp : List (Option String)),
    inp.length < f1 → inp.length < f2 →
    executeFuel f1 sh cmd args inp = executeFuel f2 sh cmd args inp := by
  induction f1 with
  | zero => intro f2 sh cmd args inp h1 _; exact absurd h1 (by omega)
  | succ n ih =>
    intro f2 sh cmd args inp h1 h2
    match f2 with
    | 0 => exact absurd h2 (by omega)
    | m + 1 =>
      simp only [executeFuel]
      cases hstep : execStep sh cmd args inp with
      | inl r => rfl
      | inr p =>
        obtain ⟨menuCmd, rest⟩ := p
        have hle := execStep_inr_consumes hstep
        exact ih m sh menuCmd [] rest (by omega) (by omega)

/-- `execute_command` equals `executeFuel` at any sufficiently large fuel:
the zero-fuel branch of `executeFuel` is unreachable from
`execute_command`. -/
theorem executeFuel_fuel_irrelevant (f : Nat) (sh : InteractiveShell)
    (cmd : String) (args : List String) (inp : List (Option String))
    (h : inp.length < f) :
    executeFuel f sh cmd args inp = execute_command sh cmd args inp :=
  executeFuel_congr f (inp.length + 1) sh cmd args inp h (by omega)

/-! ## Rewriting helpers -/

theorem menuFuel_succ_inl {f : Nat} {inp : List (Option String)}
    {r : Option String × List (Option String)} (h : menuStep inp = .inl r) :
    menuFuel (f + 1) inp = r := by
  simp [menuFuel, h]

theorem menuFuel_succ_inr {f : Nat} {inp rest : List (Option String)}
    (h : menuStep inp = .inr rest) :
    menuFuel (f + 1) inp = menuFuel f rest := by
  simp [menuFuel, h]

theorem executeFuel_succ_inl {f : Nat} {sh : InteractiveShell} {cmd : String}
    {args : List String} {inp : List (Option String)} {r : ExecResult}
    (h : execStep sh cmd args inp = .inl r) :
    executeFuel (f + 1) sh cmd args inp = r := by
  simp [executeFuel, h]

theorem executeFuel_succ_inr {f : Nat} {sh : InteractiveShell} {cmd : String}
    {args : List String} {inp rest : List (Option String)} {menuCmd : String}
    (h : execStep sh cmd args inp = .inr (menuCmd, rest)) :
    executeFuel (f + 1) sh cmd args inp = executeFuel f sh menuCmd [] rest := by
  simp [executeFuel, h]

/-- When the body returns directly (every case except a menu dispatch),
`execute_command` returns that result. -/
theorem execute_command_inl {sh : InteractiveShell} {cmd : String}
    {args : List String} {inp : List (Option String)} {r : ExecResult}
    (h : execStep sh cmd args inp = .inl r) :
    execute_command sh cmd args inp = r :=
  executeFuel_succ_inl h

/-- The menu dispatch line: `execute_command` on a selected menu command. -/
theorem execute_command_inr {sh : InteractiveShell} {cmd : String}
    {args : List String} {inp rest : List (Option String)} {menuCmd : String}
    (h : execStep sh cmd args inp = .inr (menuCmd, rest)) :
    execute_command sh cmd args inp = execute_command sh menuCmd [] rest := by
  have hc := execStep_inr_consumes h
  calc execute_command sh cmd args inp
      = executeFuel (inp.length + 1) sh cmd args inp := rfl
    _ = executeFuel inp.length sh menuCmd [] rest := executeFuel_succ_inr h
    _ = execute_command sh menuCmd [] rest :=
        executeFuel_fuel_irrelevant inp.length sh menuCmd [] rest (by omega)

/-! ## Invariants of the dispatcher -/

/-- The body either leaves the shell object unchanged or only clears the
running flag (the `exit`/`quit` branch). -/
theorem execStep_inl_shell {sh : InteractiveShell} {cmd : String}
    {args : List String} {inp : List (Option String)} {r : ExecResult}
    (h : execStep sh cmd args inp = .inl r) :
    r.shell = sh ∨ r.shell = { sh with running := false } := by
  simp only [execStep] at h
  repeat' split at h
  all_goals try exact Sum.noConfusion h
  all_goals (obtain rfl := (Sum.inl.inj h).symm; simp)

theorem executeFuel_shell (f : Nat) : ∀ (sh : InteractiveShell) (cmd : String)
    (args : List String) (inp : List (Option String)),
    (executeFuel f sh cmd args inp).shell = sh ∨
      (executeFuel f sh cmd args inp).shell = { sh with running := false } := by
  induction f with
  | zero => intro sh cmd args inp; left; rfl
  | succ n ih =>
    intro sh cmd args inp
    cases hstep : execStep sh cmd args inp with
    | inl r => rw [executeFuel_succ_inl hstep]; exact execStep_inl_shell hstep
    | inr p =>
      obtain ⟨menuCmd, rest⟩ := p
      rw [executeFuel_succ_inr hstep]
      exact ih sh menuCmd [] rest

/-- `execute_command` either leaves the shell object unchanged or only
clears the running flag. -/
theorem execute_command_shell (sh : InteractiveShell) (cmd : String)
    (args : List String) (inp : List (Option String)) :
    (execute_command sh cmd args inp).shell = sh ∨
      (execute_command sh cmd args inp).shell = { sh with running := false } :=
  executeFuel_shell (inp.length + 1) sh cmd args inp

/-- `execute_command` never touches the history buffer. -/
theorem execute_command_history (sh : InteractiveShell) (cmd : String)
    (args : List String) (inp : List (Option String)) :
    (execute_command sh cmd args inp).shell.command_history =
      sh.command_history := by
  rcases execute_command_shell sh cmd args inp with h | h <;> rw [h]

/-- If the body clears the running flag then it printed the goodbye
message, i.e. it took the `exit`/`quit` branch. -/
theorem execStep_inl_goodbye {sh : InteractiveShell} {cmd : String}
    {args : List String} {inp : List (Option String)} {r : ExecResult}
    (h : execStep sh cmd args inp = .inl r) (hrun : sh.running = true)
    (hoff : r.shell.running = false) : Report.goodbye ∈ r.out := by
  simp only [execStep] at h
  repeat' split at h
  all_goals try exact Sum.noConfusion h
  all_goals (obtain rfl := (Sum.inl.inj h).symm; simp_all)

theorem executeFuel_goodbye (f : Nat) : ∀ (sh : InteractiveShell) (cmd : String)
    (args : List String) (inp : List (Option String)),
    sh.running = true → (executeFuel f sh cmd args inp).shell.running = false →
    Report.goodbye ∈ (executeFuel f sh cmd args inp).out := by
  induction f with
  | zero =>
    intro sh cmd args inp hrun hoff
    exact absurd (hrun.symm.trans hoff) (by simp)
  | succ n ih =>
    intro sh cmd args inp hrun hoff
    cases hstep : execStep sh cmd args inp with
    | inl r =>
      rw [executeFuel_succ_inl hstep] at hoff ⊢
      exact execStep_inl_goodbye hstep hrun hoff
    | inr p =>
      obtain ⟨menuCmd, rest⟩ := p
      rw [executeFuel_succ_inr hstep] at hoff ⊢
      exact ih sh menuCmd [] rest hrun hoff

/-- The running flag is cleared by `execute_command` only in a pass through
the `exit`/`quit` built-in branch, which prints the goodbye message. -/
theorem execute_command_goodbye {sh : InteractiveShell} {cmd : String}
    {args : List String} {inp : List (Option String)}
    (hrun : sh.running = true)
    (hoff : (execute_command sh cmd args inp).shell.running = false) :
    Report.goodbye ∈ (execute_command sh cmd args inp).out :=
  executeFuel_goodbye (inp.length + 1) sh cmd args inp hrun hoff

/-! ## Menu results come from the compiled-in table -/

theorem askChoice_mem {choices : List String} {v : Option String} {s : String}
    (h : askChoice choices v = some s) : s ∈ choices := by
  unfold askChoice at h
  cases v with
  | none => exact Option.noConfusion h
  | some t =>
    have h' : (if choices.contains t then some t else none) = some s := h
    by_cases hc : choices.contains t
    · rw [if_pos hc] at h'
      obtain rfl := Option.some.inj h'
      exact List.mem_of_elem_eq_true hc
    · rw [if_neg hc] at h'
      exact Option.noConfusion h'

theorem catChoices_mem_menu {cat : String} {cs : List String}
    (h : categoryCommandsOf cat = some cs) {c : String} (hc : c ∈ cs)
    (hne : c ≠ "← Back") : c ∈ menuCommandNames := by
  unfold categoryCommandsOf at h
  repeat' split at h
  all_goals try exact Option.noConfusion h
  all_goals
    (obtain rfl := (Option.some.inj h).symm;
     fin_cases hc <;> first | exact absurd rfl hne | decide)

theorem menuStep_inl_some_mem {inp rest : List (Option String)} {c : String}
    (h : menuStep inp = .inl (some c, rest)) : c ∈ menuCommandNames := by
  unfold menuStep at h
  repeat' split at h
  all_goals try exact Sum.noConfusion h
  all_goals simp_all
  exact catChoices_mem_menu ‹categoryCommandsOf _ = some _›
    (askChoice_mem ‹askChoice _ _ = some c›) ‹¬c = "← Back"›

theorem menuFuel_some_mem (f : Nat) : ∀ (inp : List (Option String))
    (c : String) (rest : List (Option String)),
    menuFuel f inp = (some c, rest) → c ∈ menuCommandNames := by
  induction f with
  | zero => intro inp c rest h; simp [menuFuel] at h
  | succ n ih =>
    intro inp c rest h
    cases hstep : menuStep inp with
    | inl r =>
      rw [menuFuel_succ_inl hstep] at h
      rw [h] at hstep
      exact menuStep_inl_some_mem hstep
    | inr rest2 =>
      rw [menuFuel_succ_inr hstep] at h
      exact ih rest2 c rest h

/-- Whatever interactive input it is given, the menu returns either a
cancellation or a command from the compiled-in table. -/
theorem show_interactive_menu_mem (inp : List (Option String)) :
    (show_interactive_menu inp).1 = none ∨
      ∃ c, (show_interactive_menu inp).1 = some c ∧ c ∈ menuCommandNames := by
  cases hres : show_interactive_menu inp with
  | mk mopt rest =>
    cases mopt with
    | none => left; rfl
    | some c =>
      right
      exact ⟨c, rfl, menuFuel_some_mem (inp.length + 1) inp c rest hres⟩

/-! ## The built-in token surface, characterized -/

theorem isBuiltinToken_false_iff (t : String) :
    isBuiltinToken t = false ↔
      t ≠ "help" ∧ t ≠ "info" ∧ t ≠ "menu" ∧ t ≠ "clear" ∧ t ≠ "history" ∧
      t ≠ "exit" ∧ t ≠ "quit" ∧ t ≠ "" := by
  simp [isBuiltinToken, builtinVerbs]
  tauto

/-! ## Session loop lemmas -/

/-- The loop body never truncates the history: it appends at most one
entry. -/
theorem stepEvent_history (sh : InteractiveShell) (e : InEvent) :
    (stepEvent sh e).1.command_history =
      sh.command_history ++ (acceptedOf e).toList := by
  cases e with
  | line s menuInp =>
    simp only [stepEvent, acceptedOf]
    by_cases h : pyStrip s = ""
    · simp [h]
    · rw [if_neg h, if_neg h]
      simp only [Option.toList_some]
      rw [execute_command_history]
  | interrupt => simp [stepEvent, acceptedOf]
  | eof => simp [stepEvent, acceptedOf]
  | exc e => simp [stepEvent, acceptedOf]

/-- The loop body can clear the running flag but never sets it. -/
theorem stepEvent_running_mono {sh : InteractiveShell} {e : InEvent}
    (h : (stepEvent sh e).1.running = true) : sh.running = true := by
  cases e with
  | line s menuInp =>
    simp only [stepEvent] at h
    by_cases hs : pyStrip s = ""
    · rw [if_pos hs] at h; exact h
    · rw [if_neg hs] at h
      rcases execute_command_shell
          { sh with command_history := sh.command_history ++ [pyStrip s] }
          (parse_command (pyStrip s)).1 (parse_command (pyStrip s)).2 menuInp
        with hsh | hsh
      · rw [hsh] at h; exact h
      · rw [hsh] at h; exact absurd h (by simp)
  | interrupt => exact h
  | eof => simp [stepEvent] at h
  | exc e => exact h

/-- A stopped session processes no further events. -/
theorem runLoop_stopped {sh : InteractiveShell} (events : List InEvent)
    (h : sh.running = false) : runLoop sh events = (sh, []) := by
  cases events with
  | nil => rfl
  | cons e rest => simp [runLoop, h]

/-- Running-flag monotonicity across the loop: if the session is running
after processing the events, it was running at every point, in particular
at the start. -/
theorem runLoop_running_mono {sh : InteractiveShell} :
    ∀ {events : List InEvent},
    (runLoop sh events).1.running = true → sh.running = true := by
  intro events
  induction events generalizing sh with
  | nil => intro h; exact h
  | cons e rest ih =>
    intro h
    by_cases hrun : sh.running = true
    · exact hrun
    · rw [runLoop_stopped (e :: rest) (by simpa using hrun)] at h
      exact absurd h hrun

/-! ## Small string facts -/

theorem leadsWith_self (l : List Char) : leadsWith l l = true := by
  induction l with
  | nil => rfl
  | cons c cs ih => simp [leadsWith, ih]

theorem occursIn_of_append (p t : List Char) : occursIn t (p ++ t) = true := by
  induction p with
  | nil =>
    cases t with
    | nil => rfl
    | cons c cs => simp [occursIn, leadsWith_self]
  | cons a p ih => simp [occursIn, ih]

/-- The unknown-command report text contains the offending token. -/
theorem unknownMessage_names_token (tok : String) :
    strContains (unknownMessage tok) tok = true :=
  occursIn_of_append "Unknown command: ".toList tok.toList

theorem pyStrip_eq_empty {s : String} (h : pyStrip s = "") :
    ∀ c ∈ s.toList, c.isWhitespace := by
  unfold pyStrip at h
  have h2 : ((s.toList.dropWhile Char.isWhitespace).reverse.dropWhile
      Char.isWhitespace).reverse = [] := congrArg String.data h
  rw [List.reverse_eq_nil_iff, List.dropWhile_eq_nil_iff] at h2
  intro c hc
  have hsplit := List.takeWhile_append_dropWhile
    (p := Char.isWhitespace) (l := s.toList)
  rw [← hsplit] at hc
  rcases List.mem_append.mp hc with hm | hm
  · exact List.mem_takeWhile_imp hm
  · exact h2 c (List.mem_reverse.mpr hm)

theorem shlexWS_of_isWhitespace {c : Char} (h : c.isWhitespace) :
    shlexWS c = true := by
  simp only [Char.isWhitespace, Bool.or_eq_true, decide_eq_true_eq] at h
  simp only [shlexWS, Bool.or_eq_true, beq_iff_eq]
  tauto

theorem shlexAux_all_ws : ∀ (cs : List Char), (∀ c ∈ cs, shlexWS c = true) →
    ∀ acc, shlexAux cs .ground [] false acc = .ok acc := by
  intro cs
  induction cs with
  | nil => intro _ acc; rfl
  | cons c cs ih =>
    intro h acc
    have hc : shlexWS c = true := h c (by simp)
    simp only [shlexAux, hc, if_true, List.isEmpty_nil, Bool.not_false,
      Bool.and_self, if_pos]
    exact ih (fun d hd => h d (by simp [hd])) acc

/-- A whitespace-only line lexes to no tokens at all. -/
theorem shlexSplit_ws_only {s : String} (h : pyStrip s = "") :
    shlexSplit s = .ok [] := by
  unfold shlexSplit
  exact shlexAux_all_ws s.toList
    (fun c hc => shlexWS_of_isWhitespace (pyStrip_eq_empty h c hc)) []

/-! ## Claims -/

/-- Claim C8: `parse_command` is total on every input line: shell-style
lexing is attempted first, and on a lexing error (unmatched or malformed
quoting) it falls back to naive whitespace splitting instead of failing; an
empty or whitespace-only line parses to the empty token with no arguments;
the returned command token is the lowercased first field while the
arguments are the remaining fields verbatim, preserving case and order. -/
theorem claim_C8_parse_command_total (s : String) :
    (∀ err, shlexSplit s = .error err → splitParts s = pySplit s) ∧
    (pyStrip s = "" → parse_command s = ("", [])) ∧
    (parse_command s).1 = pyToLower ((splitParts s).headD "") ∧
    (parse_command s).2 = (splitParts s).tail := by
  refine ⟨?_, ?_, ?_, ?_⟩
  · intro err h
    simp [splitParts, h]
  · intro h
    have hok := shlexSplit_ws_only h
    simp [parse_command, splitParts, hok]
  · cases hp : splitParts s with
    | nil => simp [parse_command, hp, pyToLower]
    | cons c args => simp [parse_command, hp]
  · cases hp : splitParts s with
    | nil => simp [parse_command, hp]
    | cons c args => simp [parse_command, hp]

/-- Witness for C8 at concrete inputs: a whitespace-only line parses to the
empty token, and a line with an unclosed quote falls back to whitespace
splitting. -/
theorem claim_C8_witness :
    parse_command "   " = ("", []) ∧ splitParts "'a b" = pySplit "'a b" :=
  ⟨(claim_C8_parse_command_total "   ").2.1 rfl,
   (claim_C8_parse_command_total "'a b").1 .noClosingQuote rfl⟩

/-- Claim C9: registering the same canonical name twice silently replaces
the first binding — lookup afterwards reaches only the second operation
(last-write-wins), registration is total (no duplicate-registration
error), and nothing else of the shell state is disturbed. -/
theorem claim_C9_register_last_write_wins (sh : InteractiveShell)
    (name : String) (f g : Operation) :
    lookupStr (register_command name g (register_command name f sh)).commands
        name = some g ∧
    (register_command name g (register_command name f sh)).aliases =
      sh.aliases ∧
    (register_command name g (register_command name f sh)).running =
      sh.running ∧
    (register_command name g (register_command name f sh)).command_history =
      sh.command_history := by
  refine ⟨?_, rfl, rfl, rfl⟩
  simp [register_command, lookupStr, List.find?]

/-- Counterexample to claim C2 as stated: invoking registered command
`mycmd`, whose operation raises `kaboom`, is caught and handled, but the
failure report is `Error executing command: kaboom` — the rendered message
does not contain the failing command's name `mycmd`, contrary to the
claim's "reports a message that names the failing command". -/
theorem claim_C2_counterexample :
    (execute_command shellC2 "mycmd" ["x"] []).handled = true ∧
    (execute_command shellC2 "mycmd" ["x"] []).out =
      [.invoked "mycmd" ["x"], .errorExecuting "kaboom"] ∧
    strContains (errorMessage "kaboom") "mycmd" = false :=
  ⟨rfl, rfl, rfl⟩

/-- Claim C2 (amended): when a registered operation raises during its
invocation, `execute` catches the failure at the dispatch boundary, emits
the failure report carrying the exception's message (rendered as
`Error executing command: <error>`, built from the exception only — it does
not include the command token), returns handled=true, and leaves the shell
state (including the running flag) unchanged; the failure never propagates
out of `execute`. -/
theorem claim_C2_operation_failure (sh : InteractiveShell) (cmd : String)
    (args : List String) (inp : List (Option String)) (e : String)
    (f : Operation)
    (hnb : isBuiltinToken (resolveAlias sh.aliases cmd) = false)
    (hf : lookupStr sh.commands (resolveAlias sh.aliases cmd) = some f)
    (hraise : f args = .raises e) :
    execute_command sh cmd args inp =
      ⟨sh, true,
       [.invoked (resolveAlias sh.aliases cmd) args, .errorExecuting e],
       inp⟩ := by
  obtain ⟨h1, h2, h3, h4, h5, h6, h7, h8⟩ := (isBuiltinToken_false_iff _).mp hnb
  apply execute_command_inl
  simp [execStep, h1, h2, h3, h4, h5, h6, h7, h8, hf, hraise]

/-- Witness for C2's amended theorem at a concrete raising operation. -/
theorem claim_C2_witness :
    execute_command shellC2 "mycmd" ["x"] [] =
      ⟨shellC2, true,
       [.invoked "mycmd" ["x"], .errorExecuting "kaboom"], []⟩ :=
  claim_C2_operation_failure shellC2 "mycmd" ["x"] [] "kaboom" opBoom
    rfl rfl rfl

/-- Claim C3: a token that is neither an alias-table key, nor part of the
built-in surface (the seven reserved verbs together with the empty token),
nor a registered canonical name makes `execute` return handled=false, emit
exactly one unknown-command report (whose rendered text names the token),
plus the help/menu hint, and leave the shell — in particular the running
flag — unchanged. -/
theorem claim_C3_unknown_command (sh : InteractiveShell) (cmd : String)
    (args : List String) (inp : List (Option String))
    (hal : lookupStr sh.aliases cmd = none)
    (hnb : isBuiltinToken cmd = false)
    (hmiss : lookupStr sh.commands cmd = none) :
    execute_command sh cmd args inp =
      ⟨sh, false, [.unknownCommand cmd, .unknownHint], inp⟩ ∧
    ((execute_command sh cmd args inp).out.countP isUnknownReport = 1) ∧
    strContains (unknownMessage cmd) cmd = true := by
  obtain ⟨h1, h2, h3, h4, h5, h6, h7, h8⟩ := (isBuiltinToken_false_iff _).mp hnb
  have hres : resolveAlias sh.aliases cmd = cmd := by simp [resolveAlias, hal]
  have hstep : execStep sh cmd args inp =
      .inl ⟨sh, false, [.unknownCommand cmd, .unknownHint], inp⟩ := by
    simp [execStep, hres, h1, h2, h3, h4, h5, h6, h7, h8, hmiss]
  have hex := execute_command_inl hstep
  refine ⟨hex, ?_, unknownMessage_names_token cmd⟩
  rw [hex]
  rfl

/-- Witness for C3 at the spec's own example token `bogus` on a fresh
shell. -/
theorem claim_C3_witness :
    execute_command mkShell "bogus" [] [] =
      ⟨mkShell, false, [.unknownCommand "bogus", .unknownHint], []⟩ ∧
    ((execute_command mkShell "bogus" [] []).out.countP isUnknownReport = 1) ∧
    strContains (unknownMessage "bogus") "bogus" = true :=
  claim_C3_unknown_command mkShell "bogus" [] [] rfl rfl rfl

/-- Counterexample to claim C1 as stated: with the alias `exit → zzz`
registered, executing the built-in token `exit` neither performs the exit
behavior (the running flag stays true) nor returns handled=true — the
alias table CAN override built-in verbs, because alias substitution runs
before the built-in check.  (The reference registration in `main.py`
itself shadows the `clear` and `history` built-ins this way.) -/
theorem claim_C1_counterexample :
    (execute_command shellC1 "exit" [] []).handled = false ∧
    (execute_command shellC1 "exit" [] []).shell.running = true ∧
    (execute_command shellC1 "exit" [] []).out =
      [.unknownCommand "zzz", .unknownHint] :=
  ⟨rfl, rfl, rfl⟩

theorem isBuiltinToken_true_iff (t : String) :
    isBuiltinToken t = true ↔
      t = "help" ∨ t = "info" ∨ t = "menu" ∨ t = "clear" ∨ t = "history" ∨
      t = "exit" ∨ t = "quit" ∨ t = "" := by
  simp [isBuiltinToken, builtinVerbs]
  tauto

/-- Claim C1 (amended): the reserved built-in tokens and the empty token
are resolved after alias substitution but before Registry lookup; for
every alias table in which the token is NOT bound as an alias key, and
every registry, executing a built-in token performs that built-in's
behavior and invokes no registered operation; it returns handled=true,
except that `menu` propagates the handled value of the command selected in
the menu (handled=true being guaranteed when the menu is cancelled). -/
theorem claim_C1_builtins_after_alias (sh : InteractiveShell) (tok : String)
    (args : List String) (inp : List (Option String))
    (hb : isBuiltinToken tok = true)
    (hal : lookupStr sh.aliases tok = none) :
    ((tok = "exit" ∨ tok = "quit") →
      execute_command sh tok args inp =
        ⟨{ sh with running := false }, true, [.goodbye], inp⟩) ∧
    (tok = "help" →
      execute_command sh tok args inp = ⟨sh, true, [.helpTable], inp⟩) ∧
    (tok = "info" →
      execute_command sh tok args inp = ⟨sh, true, [.infoPanel], inp⟩) ∧
    (tok = "clear" →
      execute_command sh tok args inp = ⟨sh, true, [.clearScreen], inp⟩) ∧
    (tok = "history" →
      (sh.command_history = [] →
        execute_command sh tok args inp = ⟨sh, true, [.noHistory], inp⟩) ∧
      (sh.command_history ≠ [] →
        execute_command sh tok args inp =
          ⟨sh, true, [.historyTable (lastN 20 sh.command_history)], inp⟩)) ∧
    (tok = "" → execute_command sh tok args inp = ⟨sh, true, [], inp⟩) ∧
    (tok ≠ "menu" → ∀ name opArgs,
      Report.invoked name opArgs ∉ (execute_command sh tok args inp).out) ∧
    (tok = "menu" → (show_interactive_menu inp).1 = none →
      execute_command sh tok args inp =
        ⟨sh, true, [], (show_interactive_menu inp).2⟩) ∧
    (tok = "menu" → ∀ m, (show_interactive_menu inp).1 = some m → m ≠ "" →
      execute_command sh tok args inp =
        execute_command sh m [] (show_interactive_menu inp).2) := by
  have hres : resolveAlias sh.aliases tok = tok := by simp [resolveAlias, hal]
  refine ⟨?_, ?_, ?_, ?_, ?_, ?_, ?_, ?_, ?_⟩
  · rintro (rfl | rfl) <;>
      (apply execute_command_inl; simp [execStep, resolveAlias, hal])
  · rintro rfl
    apply execute_command_inl
    simp [execStep, resolveAlias, hal]
  · rintro rfl
    apply execute_command_inl
    simp [execStep, resolveAlias, hal]
  · rintro rfl
    apply execute_command_inl
    simp [execStep, resolveAlias, hal]
  · rintro rfl
    constructor
    · intro hh
      apply execute_command_inl
      simp [execStep, resolveAlias, hal, hh]
    · intro hh
      apply execute_command_inl
      have : sh.command_history.isEmpty = false := by
        cases hl : sh.command_history with
        | nil => exact absurd hl hh
        | cons a l => rfl
      simp [execStep, resolveAlias, hal, this]
  · rintro rfl
    apply execute_command_inl
    simp [execStep, resolveAlias, hal]
  · intro hmenu name opArgs
    rcases (isBuiltinToken_true_iff tok).mp hb with rfl | rfl | rfl | rfl | rfl
      | rfl | rfl | rfl
    · rw [execute_command_inl (r := ⟨sh, true, [.helpTable], inp⟩)
        (by simp [execStep, resolveAlias, hal])]
      simp
    · rw [execute_command_inl (r := ⟨sh, true, [.infoPanel], inp⟩)
        (by simp [execStep, resolveAlias, hal])]
      simp
    · exact absurd rfl hmenu
    · rw [execute_command_inl (r := ⟨sh, true, [.clearScreen], inp⟩)
        (by simp [execStep, resolveAlias, hal])]
      simp
    · by_cases hh : sh.command_history = []
      · rw [execute_command_inl (r := ⟨sh, true, [.noHistory], inp⟩)
          (by simp [execStep, resolveAlias, hal, hh])]
        simp
      · have hie : sh.command_history.isEmpty = false := by
          cases hl : sh.command_history with
          | nil => exact absurd hl hh
          | cons a l => rfl
        rw [execute_command_inl
          (r := ⟨sh, true, [.historyTable (lastN 20 sh.command_history)], inp⟩)
          (by simp [execStep, resolveAlias, hal, hie])]
        simp
    · rw [execute_command_inl
        (r := ⟨{ sh with running := false }, true, [.goodbye], inp⟩)
        (by simp [execStep, resolveAlias, hal])]
      simp
    · rw [execute_command_inl
        (r := ⟨{ sh with running := false }, true, [.goodbye], inp⟩)
        (by simp [execStep, resolveAlias, hal])]
      simp
    · rw [execute_command_inl (r := ⟨sh, true, [], inp⟩)
        (by simp [execStep, resolveAlias, hal])]
      simp
  · rintro rfl hm
    rcases hmenu : show_interactive_menu inp with ⟨mopt, rest⟩
    rw [hmenu] at hm
    simp only at hm
    subst hm
    have hstep : execStep sh "menu" args inp = .inl ⟨sh, true, [], rest⟩ := by
      simp [execStep, resolveAlias, hal, hmenu]
    rw [execute_command_inl hstep]
  · rintro rfl m hm hne
    rcases hmenu : show_interactive_menu inp with ⟨mopt, rest⟩
    rw [hmenu] at hm
    simp only at hm
    subst hm
    have hstep : execStep sh "menu" args inp = .inr (m, rest) := by
      simp [execStep, resolveAlias, hal, hmenu, hne]
    rw [execute_command_inr hstep]

/-- Witness for C1's amended theorem: on a fresh shell (no aliases), the
`exit` built-in clears the running flag and reports goodbye. -/
theorem claim_C1_witness :
    execute_command mkShell "exit" [] [] =
      ⟨{ mkShell with running := false }, true, [.goodbye], []⟩ :=
  (claim_C1_builtins_after_alias mkShell "exit" [] [] rfl rfl).1 (Or.inl rfl)

/-- Counterexample to claim C4 as stated: with aliases `a → c` and
`c → d` and the registry containing `c`, `execute("a")` resolves to `c`,
hits the registry and is handled, while `execute("c")` re-resolves to the
unknown `d` and is not handled — so `execute(A, args)` is not always
identical to `execute(C, args)`. -/
theorem claim_C4_counterexample :
    lookupStr shellC4.aliases "a" = some "c" ∧
    (lookupStr shellC4.commands "c").isSome = true ∧
    (execute_command shellC4 "a" [] []).handled = true ∧
    (execute_command shellC4 "c" [] []).handled = false :=
  ⟨rfl, rfl, rfl, rfl⟩

/-- Claim C4 (amended): alias transparency holds whenever the canonical
name is not itself an alias key: if the alias table maps `a` to `c` and
does not bind `c`, then `execute(a, args)` and `execute(c, args)` agree
exactly — same shell state, same handled value, same reports (hence the
same operation invocation), for every argument list and menu input. -/
theorem claim_C4_alias_transparency (sh : InteractiveShell) (a c : String)
    (args : List String) (inp : List (Option String))
    (hmap : lookupStr sh.aliases a = some c)
    (hself : lookupStr sh.aliases c = none)
    (_hreg : (lookupStr sh.commands c).isSome = true) :
    execute_command sh a args inp = execute_command sh c args inp := by
  have h1 : resolveAlias sh.aliases a = c := by simp [resolveAlias, hmap]
  have h2 : resolveAlias sh.aliases c = c := by simp [resolveAlias, hself]
  have hstep : execStep sh a args inp = execStep sh c args inp := by
    unfold execStep
    rw [h1, h2]
  cases hs : execStep sh a args inp with
  | inl r =>
    have hs' : execStep sh c args inp = .inl r := hstep.symm.trans hs
    rw [execute_command_inl hs, execute_command_inl hs']
  | inr p =>
    obtain ⟨m, rest⟩ := p
    have hs' : execStep sh c args inp = .inr (m, rest) := hstep.symm.trans hs
    rw [execute_command_inr hs, execute_command_inr hs']

/-- Witness for C4's amended theorem at the spec's own example:
`execute("cpu")` behaves exactly as `execute("system.cpu")`. -/
theorem claim_C4_witness :
    execute_command shellC4w "cpu" [] [] =
      execute_command shellC4w "system.cpu" [] [] :=
  claim_C4_alias_transparency shellC4w "cpu" "system.cpu" [] [] rfl rfl rfl

/-- Claim C5: menu navigation always terminates (it is a total function of
the finite interactive input, consuming input as it goes), its result is
either a cancellation or a command present in the compiled-in table;
selecting back at the top level cancels with the remaining input, and
selecting back at the second level re-invokes category selection. -/
theorem claim_C5_menu_navigation (inp : List (Option String)) :
    ((show_interactive_menu inp).1 = none ∨
      ∃ c, (show_interactive_menu inp).1 = some c ∧ c ∈ menuCommandNames) ∧
    (show_interactive_menu inp).2.length ≤ inp.length ∧
    show_interactive_menu (some "← Back to Command Prompt" :: inp) =
      (none, inp) ∧
    (∀ cat cs, categoryChoices.contains cat = true →
      cat ≠ "← Back to Command Prompt" → categoryCommandsOf cat = some cs →
      cs.contains "← Back" = true →
      show_interactive_menu (some cat :: some "← Back" :: inp) =
        show_interactive_menu inp) := by
  refine ⟨show_interactive_menu_mem inp, menuFuel_rest_le (inp.length + 1) inp,
    rfl, ?_⟩
  intro cat cs h1 h2 h3 h4
  have h1m : cat ∈ categoryChoices := List.mem_of_elem_eq_true h1
  have h4m : "← Back" ∈ cs := List.mem_of_elem_eq_true h4
  have hstep : menuStep (some cat :: some "← Back" :: inp) = .inr inp := by
    simp [menuStep, askChoice, h1m, h2, h3, h4m]
  calc show_interactive_menu (some cat :: some "← Back" :: inp)
      = menuFuel (inp.length + 2 + 1) (some cat :: some "← Back" :: inp) := rfl
    _ = menuFuel (inp.length + 2) inp := menuFuel_succ_inr hstep
    _ = menuFuel (inp.length + 1) inp :=
        menuFuel_congr (inp.length + 2) (inp.length + 1) inp (by omega) (by omega)
    _ = show_interactive_menu inp := rfl

/-- Witness for C5 at concrete selections: top-level back cancels, and a
category followed by back restarts (and then cancels on empty input). -/
theorem claim_C5_witness :
    show_interactive_menu [some "← Back to Command Prompt"] = (none, []) ∧
    show_interactive_menu [some "🖥️  System Commands", some "← Back"] =
      show_interactive_menu [] :=
  ⟨(claim_C5_menu_navigation []).2.2.1,
   (claim_C5_menu_navigation []).2.2.2 "🖥️  System Commands"
     ["cpu", "memory", "processes", "disk", "env", "← Back"]
     rfl (by decide) rfl rfl⟩

/-! Session-loop history lemmas for claim C6. -/

theorem acceptedLines_cons (e : InEvent) (rest : List InEvent) :
    acceptedLines (e :: rest) = (acceptedOf e).toList ++ acceptedLines rest := by
  unfold acceptedLines
  cases he : acceptedOf e with
  | none => simp [List.filterMap_cons, he]
  | some t => simp [List.filterMap_cons, he]

theorem runLoop_history : ∀ (events : List InEvent) (sh : InteractiveShell),
    sh.running = true → (runLoop sh events).1.running = true →
    (runLoop sh events).1.command_history =
      sh.command_history ++ acceptedLines events := by
  intro events
  induction events with
  | nil => intro sh _ _; simp [runLoop, acceptedLines]
  | cons e rest ih =>
    intro sh h1 h2
    rw [runLoop, if_pos h1] at h2 ⊢
    simp only at h2 ⊢
    by_cases hr1 : (stepEvent sh e).1.running = true
    · rw [ih (stepEvent sh e).1 hr1 h2, stepEvent_history,
        acceptedLines_cons, List.append_assoc]
    · rw [runLoop_stopped rest (by simpa using hr1)] at h2
      exact absurd h2 hr1

theorem runLoop_history_prefix : ∀ (events : List InEvent)
    (sh : InteractiveShell),
    sh.command_history <+: (runLoop sh events).1.command_history := by
  intro events
  induction events with
  | nil => intro sh; exact List.prefix_refl _
  | cons e rest ih =>
    intro sh
    by_cases h1 : sh.running = true
    · rw [runLoop, if_pos h1]
      simp only
      refine List.IsPrefix.trans ?_ (ih (stepEvent sh e).1)
      rw [stepEvent_history]
      exact ⟨(acceptedOf e).toList, rfl⟩
    · rw [runLoop_stopped (e :: rest) (by simpa using h1)]

/-- Counterexample to claim C6 as stated: after the single accepted input
line `"  cpu  "`, the history buffer holds exactly one entry, but that
entry is the stripped text `"cpu"`, not the verbatim raw input line — the
loop strips the line before testing emptiness and appending. -/
theorem claim_C6_counterexample :
    (runLoop mkShell [.line rawLineC6 []]).1.command_history = ["cpu"] ∧
    ("cpu" : String) ≠ rawLineC6 :=
  ⟨rfl, by decide⟩

/-- Claim C6 (amended): in a session that is still running, after N
accepted input lines (lines non-empty after stripping) the history buffer
holds exactly those N entries — the whitespace-stripped text of each line,
in submission order; the `history` built-in displays the most recent at
most 20 entries in original relative order (a suffix of the buffer); and
history entries are never mutated or removed (the buffer at any earlier
point is a prefix of the buffer at any later point). -/
theorem claim_C6_history (sh : InteractiveShell) (events : List InEvent)
    (inp : List (Option String))
    (hrun : sh.running = true)
    (hend : (runLoop sh events).1.running = true) :
    (runLoop sh events).1.command_history =
      sh.command_history ++ acceptedLines events ∧
    (lookupStr sh.aliases "history" = none → sh.command_history ≠ [] →
      (execute_command sh "history" [] inp).out =
        [.historyTable (lastN 20 sh.command_history)]) ∧
    (lastN 20 sh.command_history).length ≤ 20 ∧
    lastN 20 sh.command_history <:+ sh.command_history ∧
    (∀ (sh2 : InteractiveShell) (evs2 : List InEvent),
      sh2.command_history <+: (runLoop sh2 evs2).1.command_history) := by
  refine ⟨runLoop_history events sh hrun hend, ?_, ?_, List.drop_suffix _ _,
    fun sh2 evs2 => runLoop_history_prefix evs2 sh2⟩
  · intro hal hh
    have hie : sh.command_history.isEmpty = false := by
      cases hl : sh.command_history with
      | nil => exact absurd hl hh
      | cons a l => rfl
    have hstep : execStep sh "history" [] inp =
        .inl ⟨sh, true, [.historyTable (lastN 20 sh.command_history)], inp⟩ := by
      simp [execStep, resolveAlias, hal, hie]
    rw [execute_command_inl hstep]
  · unfold lastN
    rw [List.length_drop]
    omega

/-- Witness for C6's amended theorem: a stripped accepted line is appended
in order, and the history built-in displays the buffer. -/
theorem claim_C6_witness :
    (runLoop shellC6w [.line " x " [], .interrupt]).1.command_history =
      ["one", "two", "x"] ∧
    (execute_command shellC6w "history" [] []).out =
      [.historyTable ["one", "two"]] := by
  have h := claim_C6_history shellC6w [.line " x " [], .interrupt] [] rfl rfl
  exact ⟨h.1.trans rfl, (h.2.1 rfl (by decide)).trans rfl⟩

/-- Claim C7: the running flag is cleared only by the `exit`/`quit`
built-in (whose pass emits the goodbye report) or by the end-of-input
event; an interrupt at the prompt only surfaces the exit hint, leaves the
state unchanged, and the loop goes on to process the next prompt — no
other event moves the session from Running to Stopped. -/
theorem claim_C7_running_transitions (sh : InteractiveShell) (e : InEvent)
    (events : List InEvent) (cmd : String) (args : List String)
    (inp : List (Option String)) :
    stepEvent sh .interrupt = (sh, [.interruptHint]) ∧
    (sh.running = true →
      runLoop sh (.interrupt :: events) =
        ((runLoop sh events).1, .interruptHint :: (runLoop sh events).2)) ∧
    (sh.running = true → (stepEvent sh e).1.running = false →
      e = .eof ∨ ∃ s m, e = .line s m ∧ Report.goodbye ∈ (stepEvent sh e).2) ∧
    (sh.running = true →
      (execute_command sh cmd args inp).shell.running = false →
      Report.goodbye ∈ (execute_command sh cmd args inp).out) := by
  refine ⟨rfl, ?_, ?_, fun h1 h2 => execute_command_goodbye h1 h2⟩
  · intro h
    rw [runLoop, if_pos h]
    rfl
  · intro h1 h2
    cases e with
    | line s m =>
      right
      refine ⟨s, m, rfl, ?_⟩
      simp only [stepEvent] at h2 ⊢
      by_cases hs : pyStrip s = ""
      · rw [if_pos hs] at h2
        exact absurd (h1.symm.trans h2) (by simp)
      · rw [if_neg hs] at h2 ⊢
        exact execute_command_goodbye h1 h2
    | interrupt => exact absurd (h1.symm.trans h2) (by simp)
    | eof => left; rfl
    | exc msg => exact absurd (h1.symm.trans h2) (by simp)

/-- Witness for C7: the interrupt hint on a fresh shell, and `exit`
clearing the flag with the goodbye report present. -/
theorem claim_C7_witness :
    stepEvent mkShell .interrupt = (mkShell, [.interruptHint]) ∧
    Report.goodbye ∈ (execute_command mkShell "exit" [] []).out := by
  have h := claim_C7_running_transitions mkShell .eof [] "exit" [] []
  exact ⟨h.1, h.2.2.2 rfl rfl⟩

set_option maxHeartbeats 2000000 in
/-- Claim C10: every multi-word entry of the compiled-in menu table is a
space-containing string; no alias key and no registered canonical name of
the reference registration contains a space; selecting such an entry from
the menu makes `execute` look the whole string up as a single token, which
misses everywhere, reports it unknown and returns handled=false —
whatever operations the leaf modules bound. -/
theorem claim_C10_multiword_menu_misses (opOf : String → Operation)
    (p : String × String) (hp : p ∈ menuPathPairs) :
    strContains p.2 " " = true ∧
    p.2 ∈ menuCommandNames ∧
    (∀ q ∈ referenceAliasPairs, strContains q.1 " " = false) ∧
    (∀ n ∈ referenceCommandNames, strContains n " " = false) ∧
    show_interactive_menu [some p.1, some p.2] = (some p.2, []) ∧
    execute_command (referenceShell opOf) "menu" [] [some p.1, some p.2] =
      ⟨referenceShell opOf, false,
       [.unknownCommand p.2, .unknownHint], []⟩ := by
  fin_cases hp <;>
    exact ⟨rfl, by decide, by decide, by decide, rfl, rfl⟩

set_option maxHeartbeats 1000000 in
/-- Witness for C10 at the `git status` menu entry with all leaf
operations bound to a no-op. -/
theorem claim_C10_witness :
    show_interactive_menu [some "🔧 Git Commands", some "git status"] =
      (some "git status", []) ∧
    execute_command (referenceShell (fun _ _ => OpResult.ok)) "menu" []
        [some "🔧 Git Commands", some "git status"] =
      ⟨referenceShell (fun _ _ => OpResult.ok), false,
       [.unknownCommand "git status", .unknownHint], []⟩ := by
  have h := claim_C10_multiword_menu_misses (fun _ _ => OpResult.ok)
    ("🔧 Git Commands", "git status") (by decide)
  exact ⟨h.2.2.2.2.1, h.2.2.2.2.2⟩

end Paragon
